import Mathlib

/-!
Verification of the live2d-sample repository's lip-sync / speech-queue core.

Each definition below is a shallow embedding of a function from the
TypeScript source (file and function named in its doc comment).  Numeric
values computed by the source with JavaScript numbers are modelled over `ℚ`
(the transfer functions involved are exact rational arithmetic); the
transcendental `Math.sin` calls of the synthetic fallback are modelled by
passing the sine values (or a sine function into `ℝ`) as a parameter.
-/

namespace Live2dSample

/-! ## Sentence splitting (`src/app/page.tsx`, `splitByPunctuation`) -/

/-- The punctuation set of `splitByPunctuation`
(`['。', '、', '.', ',', '!', '?', '！', '？']`). -/
def punctuationMarks : List Char := ['。', '、', '.', ',', '!', '?', '！', '？']

/-- JavaScript `String.prototype.trim` on a character list: drop leading and
trailing whitespace. -/
def trimChars (s : List Char) : List Char :=
  ((s.dropWhile Char.isWhitespace).reverse.dropWhile Char.isWhitespace).reverse

/-- One pass of the inner `for` loop of `splitByPunctuation`: scan for the
first punctuation character; return the prefix up to and including it
(`currentText.substring(0, i + 1)`) and the rest (`currentText.substring(i + 1)`),
or `none` when no punctuation occurs. -/
def scanPunct : List Char → Option (List Char × List Char)
  | [] => none
  | c :: cs =>
    if c ∈ punctuationMarks then some ([c], cs)
    else
      match scanPunct cs with
      | some (p, r) => some (c :: p, r)
      | none => none

/-- The `while` loop of `splitByPunctuation`, with explicit fuel.  Each
iteration strictly shortens the working text (the scanned prefix is nonempty
and trimming never lengthens), so fuel `s.length + 1` always suffices and the
fuel-exhausted branch is unreachable. -/
def splitByPunctuationAux : ℕ → List Char → List (List Char) × List Char
  | 0, s => ([], s)
  | fuel + 1, s =>
    match scanPunct s with
    | none => ([], s)
    | some (p, r) =>
      let chunk := trimChars p
      let rest := splitByPunctuationAux fuel (trimChars r)
      (if chunk.isEmpty then rest.1 else chunk :: rest.1, rest.2)

/-- `splitByPunctuation` from `src/app/page.tsx`: cut text at
sentence-terminal punctuation, returning the completed (trimmed, nonempty)
chunks and the remaining held-back text. -/
def splitByPunctuation (s : String) : List String × String :=
  let r := splitByPunctuationAux (s.toList.length + 1) s.toList
  (r.1.map List.asString, r.2.asString)

/-! ## Final flush of the trailing remainder
(`src/app/page.tsx`, `handleSendMessage`, after the stream ends) -/

/-- JavaScript `String.prototype.trim` on a `String`. -/
def jsTrim (s : String) : String := (trimChars s.toList).asString

/-- The final-flush decision of `handleSendMessage`:
`if (remainingText.trim() && remainingText.trim().length > 3)` and then
`if (!processedSentences.includes(finalText)) addToAudioQueue(finalText)`.
Returns the chunk enqueued for the trailing remainder, if any. -/
def finalFlush (processedSentences : List String) (remainingText : String) :
    Option String :=
  let t := jsTrim remainingText
  if t ≠ "" ∧ t.length > 3 then
    if t ∈ processedSentences then none else some t
  else none

/-! ## Amplitude-to-parameter mappers (`src/lib/lipsync.ts`) -/

/-- `clamp(x, lo, hi)` as written by the source:
`Math.max(lo, Math.min(hi, x))`. -/
def clampQ (lo hi x : ℚ) : ℚ := max lo (min hi x)

/-- The transfer function of `analyzeAudio` in `setupAudioBasedLipsync`
(`src/lib/lipsync.ts`), applied to the already-clamped RMS:
`min_ = 0; max_ = 0.8; weight = 0.6; if (value > 0) min_ = 0.2;
value = Math.max(min_, Math.min(max_, value * weight))`. -/
def audioMouthValue (clampedRms : ℚ) : ℚ :=
  let min_ : ℚ := if clampedRms > 0 then 1/5 else 0
  max min_ (min (4/5) (clampedRms * (3/5)))

/-- The transfer function of `animateMouth` in `setupTextBasedLipsync`
(`src/lib/lipsync.ts`):
`min_ = 0; max_ = 1; weight = 1.2; if (value > 0) min_ = 0.4;
value = Math.max(min_, Math.min(max_, value * weight))`. -/
def textMouthValue (raw : ℚ) : ℚ :=
  let min_ : ℚ := if raw > 0 then 2/5 else 0
  max min_ (min 1 (raw * (6/5)))

/-- The silence threshold of `analyzeAudio` (`const silenceThreshold = 0.01`). -/
def silenceThreshold : ℚ := 1/100

/-- The outcome of one invocation of the `analyzeAudio` animation-frame
callback: the value written to `ParamMouthOpenY` (if any) and whether
`requestAnimationFrame(analyzeAudio)` was called before returning. -/
structure AnalyzeResult where
  write : Option ℚ
  scheduledNext : Bool
  deriving DecidableEq, Repr

/-- One invocation of `analyzeAudio` (`src/lib/lipsync.ts`,
`setupAudioBasedLipsync`), faithful to its control flow:
* if `!isMonitoring || !analyser`, write nothing and reschedule iff
  `animationId !== null`;
* otherwise clamp the RMS to `[0, 10]`; if below the silence threshold,
  write `0` and `return` (the early return skips the trailing
  `requestAnimationFrame` call);
* otherwise write the clamped transfer value and reschedule iff
  `animationId !== null`. -/
def analyzeAudioStep (isMonitoring hasAnalyser : Bool)
    (animationId : Option ℕ) (rms : ℚ) : AnalyzeResult :=
  if !isMonitoring || !hasAnalyser then
    { write := none, scheduledNext := animationId.isSome }
  else
    let clampedRms := max 0 (min 10 rms)
    if clampedRms < silenceThreshold then
      { write := some 0, scheduledNext := false }
    else
      { write := some (audioMouthValue clampedRms),
        scheduledNext := animationId.isSome }

/-! ## Ordered speech queue (`src/app/page.tsx`,
`addToAudioQueue` / `processAudioQueue`) -/

/-- One entry of `audioQueueRef.current`:
`{ id: chunkId, text: sentence, audioUrl: null | string }`. -/
structure SpeechChunk where
  id : ℕ
  text : String
  audioUrl : Option String
  deriving DecidableEq

/-- The module state the queue code manipulates: `audioQueueRef.current`,
`chunkIdRef.current`, `isProcessingQueueRef.current`, plus the observable
trace of chunk ids in the order their playback started
(`model.speak` calls). -/
structure AudioQueueState where
  queue : List SpeechChunk
  nextId : ℕ
  processing : Bool
  played : List ℕ
  deriving DecidableEq

/-- The reset state of `handleSendMessage`: empty queue, id counter 0, not
processing, nothing played. -/
def initialQueueState : AudioQueueState :=
  { queue := [], nextId := 0, processing := false, played := [] }

/-- The asynchronous events the queue code reacts to. -/
inductive QueueEvent where
  | enqueue (text : String)
  | resolve (id : ℕ) (url : String)
  | synthFail (id : ℕ)
  | processQueue
  | finishPlayback

/-- Payload resolution inside `addToAudioQueue`'s async continuation:
`audioQueueRef.current.find(item => item.id === chunkId)` and set its
`audioUrl` (ids are unique, so updating every match is the same map). -/
def resolveChunk (queue : List SpeechChunk) (i : ℕ) (url : String) :
    List SpeechChunk :=
  queue.map fun c => if c.id = i then { c with audioUrl := some url } else c

/-- One event of the queue system:
* `enqueue` — `addToAudioQueue`: push a pending entry with the next id and
  bump `chunkIdRef` (the synthesis request is issued immediately and
  concurrently; its completion is the separate `resolve` event);
* `resolve` — the synthesis response: fill in `audioUrl`;
* `synthFail` — the synthesis catch-branch: drop the chunk by id;
* `processQueue` — `processAudioQueue`: if not already processing and the
  head of the queue has a resolved payload, shift it and start playback
  (`model.speak`); if the head is still pending, do nothing now (the code
  schedules a retry via `setTimeout`);
* `finishPlayback` — `onFinish`/`onError` of `model.speak`: clear the
  processing flag. -/
def applyEvent (st : AudioQueueState) : QueueEvent → AudioQueueState
  | .enqueue text =>
    { st with queue := st.queue ++ [⟨st.nextId, text, none⟩],
              nextId := st.nextId + 1 }
  | .resolve i url => { st with queue := resolveChunk st.queue i url }
  | .synthFail i => { st with queue := st.queue.filter fun c => c.id ≠ i }
  | .processQueue =>
    if st.processing then st
    else
      match st.queue with
      | [] => st
      | c :: rest =>
        match c.audioUrl with
        | none => st
        | some _ =>
          { queue := rest, nextId := st.nextId, processing := true,
            played := st.played ++ [c.id] }
  | .finishPlayback => { st with processing := false }

/-- The queue state after a list of events, from the reset state. -/
def runQueue (es : List QueueEvent) : AudioQueueState :=
  es.foldl applyEvent initialQueueState

/-- Whether the queue's head chunk exists and its payload is unresolved. -/
def headPending (st : AudioQueueState) : Bool :=
  match st.queue with
  | c :: _ => c.audioUrl.isNone
  | [] => false

/-- The ids currently in the queue, in queue order. -/
def queueIds (st : AudioQueueState) : List ℕ := st.queue.map SpeechChunk.id

/-- Queue invariant: the played ids followed by the queued ids are strictly
increasing, and all of them are below the id counter. -/
def QInv (st : AudioQueueState) : Prop :=
  (st.played ++ queueIds st).Pairwise (· < ·) ∧
  ∀ i ∈ st.played ++ queueIds st, i < st.nextId

/-! ## Streaming audio scheduler (`src/unnamed/part_006`,
`StreamingAudioPlayer.enqueue` / `flushAndStop`) -/

/-- The minimum lead time of `StreamingAudioPlayer.enqueue`
(`const minLead = 0.05`, i.e. 50 ms). -/
def minLeadTime : ℚ := 1/20

/-- The scheduling clock of `StreamingAudioPlayer` (`this.playbackTime`). -/
structure StreamingSchedule where
  playbackTime : ℚ
  deriving DecidableEq

/-- `StreamingAudioPlayer.enqueue`: a zero-length chunk is ignored
(`if (!int16 || int16.length === 0) return`); otherwise the chunk is
scheduled at `startAt = Math.max(this.playbackTime, now + minLead)` and the
clock advances to `startAt + duration`, `duration = length / sampleRate`.
Returns the new clock state and the scheduled `(start, end)` interval. -/
def spEnqueue (sampleRate : ℚ) (st : StreamingSchedule) (now : ℚ)
    (len : ℕ) : StreamingSchedule × Option (ℚ × ℚ) :=
  if len = 0 then (st, none)
  else
    let startAt := max st.playbackTime (now + minLeadTime)
    let dur := (len : ℚ) / sampleRate
    (⟨startAt + dur⟩, some (startAt, startAt + dur))

/-- A sequence of `enqueue` calls, each given the `AudioContext` time `now`
at which it runs and the chunk length; returns the final clock and the
scheduled intervals in order. -/
def spRun (sampleRate : ℚ) (st : StreamingSchedule) :
    List (ℚ × ℕ) → StreamingSchedule × List (ℚ × ℚ)
  | [] => (st, [])
  | (now, len) :: rest =>
    let r := spEnqueue sampleRate st now len
    let rr := spRun sampleRate r.1 rest
    (rr.1, r.2.toList ++ rr.2)

/-- A source node scheduled by the streaming player, with the flags the
shutdown path drives (`src.stop(0)`, `src.disconnect()`). -/
structure ScheduledSource where
  stopped : Bool
  connected : Bool
  deriving DecidableEq

/-- The buffer-side state of `StreamingAudioPlayer`: the scheduled source
list and the scheduling clock. -/
structure StreamingPlayerBuffers where
  scheduledSources : List ScheduledSource
  playbackTime : ℚ
  deriving DecidableEq

/-- `StreamingAudioPlayer.flushAndStop` (`src/unnamed/part_006`): stop and
disconnect every scheduled source, empty `scheduledSources`, and reset
`playbackTime` to the context's current time.  The second component returns
the sources as the loop leaves them, for inspection. -/
def flushAndStop (now : ℚ) (st : StreamingPlayerBuffers) :
    StreamingPlayerBuffers × List ScheduledSource :=
  ({ scheduledSources := [], playbackTime := now },
   st.scheduledSources.map fun s =>
     { s with stopped := true, connected := false })

/-- The `onServerContent` dispatch of the Gemini Live chat component
(`src/unnamed/part_004`): `if (sc?.interrupted && streamingPlayerRef.current)
streamingPlayerRef.current.flushAndStop()` — returns whether the flush runs
(`turnComplete` alone never flushes). -/
def onServerContentFlush (interrupted _turnComplete hasPlayer : Bool) : Bool :=
  interrupted && hasPlayer

/-- Modelled from the spec: the per-frame mouth update of the external
renderer binding (`mouthSync` of the pixi-live2d-display lip-sync patch,
which `wireLipsyncFromMediaStream` configures; the patch itself is a
dependency, not part of this repository).  Per §4.2 of the spec: below a
silence threshold the written value is forced to 0; otherwise
`clamp(raw * weight, floor, ceiling)` with the spec's example parameter set
weight 1.0, floor 0.4, ceiling 1.0. -/
def specMouthFrame (raw : ℚ) : ℚ :=
  if raw < silenceThreshold then 0 else clampQ (2/5) 1 (raw * 1)

/-! ## Base64 PCM round trip (`src/unnamed/part_006`,
`int16ArrayToBase64`; `src/lib/gemini-live.ts`, `connect` message decode and
`combineAudioData`) -/

/-- The standard base64 alphabet used by the browser's `btoa`/`atob`. -/
def b64Alphabet : List Char :=
  "ABCDEFGHIJKLMNOPQRSTUVWXYZabcdefghijklmnopqrstuvwxyz0123456789+/".toList

/-- The base64 digit for a 6-bit value. -/
def b64Char (i : ℕ) : Char := b64Alphabet.getD i '='

/-- Position of a base64 digit in the alphabet. -/
def b64IndexAux (c : Char) : List Char → ℕ
  | [] => 0
  | d :: ds => if d = c then 0 else b64IndexAux c ds + 1

/-- The 6-bit value of a base64 digit (`atob`'s inverse alphabet lookup). -/
def b64Index (c : Char) : ℕ := b64IndexAux c b64Alphabet

/-- `btoa` on a byte sequence (each element < 256): standard base64 with
`'='` padding, three bytes to four digits. -/
def btoaBytes : List ℕ → List Char
  | [] => []
  | [a] => [b64Char (a / 4), b64Char (a % 4 * 16), '=', '=']
  | [a, b] => [b64Char (a / 4), b64Char (a % 4 * 16 + b / 16),
               b64Char (b % 16 * 4), '=']
  | a :: b :: c :: rest =>
    b64Char (a / 4) :: b64Char (a % 4 * 16 + b / 16) ::
      b64Char (b % 16 * 4 + c / 64) :: b64Char (c % 64) :: btoaBytes rest

/-- `atob`: decode four base64 digits to three bytes, honouring `'='`
padding. -/
def atobBytes : List Char → List ℕ
  | c0 :: c1 :: c2 :: c3 :: rest =>
    if c2 = '=' then [b64Index c0 * 4 + b64Index c1 / 16]
    else if c3 = '=' then
      [b64Index c0 * 4 + b64Index c1 / 16,
       b64Index c1 % 16 * 16 + b64Index c2 / 4]
    else
      (b64Index c0 * 4 + b64Index c1 / 16) ::
        (b64Index c1 % 16 * 16 + b64Index c2 / 4) ::
        (b64Index c2 % 4 * 64 + b64Index c3) :: atobBytes rest
  | _ => []

/-- `view.setInt16(i * 2, sample, true)` of `int16ArrayToBase64`: the
two's-complement little-endian byte pair of one sample. -/
def int16ToBytesLE (x : ℤ) : List ℕ :=
  [(x % 65536).toNat % 256, (x % 65536).toNat / 256]

/-- The byte buffer `int16ArrayToBase64` builds: every sample written
little-endian in order. -/
def int16sToBytesLE : List ℤ → List ℕ
  | [] => []
  | x :: xs => int16ToBytesLE x ++ int16sToBytesLE xs

/-- `int16ArrayToBase64` (`src/unnamed/part_006`): pack the samples
little-endian into a binary string and `btoa` it. -/
def int16ArrayToBase64 (xs : List ℤ) : List Char :=
  btoaBytes (int16sToBytesLE xs)

/-- The receive side's `new Int16Array(bytes.buffer, bytes.byteOffset,
Math.floor(bytes.byteLength / 2))` (`src/lib/gemini-live.ts`): pair
consecutive bytes little-endian as signed 16-bit values; a trailing odd
byte is dropped. -/
def bytesToInt16LE : List ℕ → List ℤ
  | lo :: hi :: rest =>
    (if lo + hi * 256 < 32768 then (lo + hi * 256 : ℤ)
     else (lo + hi * 256 : ℤ) - 65536) :: bytesToInt16LE rest
  | _ => []

/-- The receive-side pipeline of the Gemini Live message handler and
`combineAudioData`: `atob`, bytes, reinterpret as `Int16Array`. -/
def decodeBase64ToInt16 (s : List Char) : List ℤ :=
  bytesToInt16LE (atobBytes s)

/-! ## Synthetic fallback animation (`src/lib/lipsync.ts`,
`setupAudioBasedLipsync` → `triggerSpeaking` → `startTextBasedSync`) -/

/-- The per-frame mouth value of the synthetic fallback, given the two sine
samples the frame uses (`Math.sin(elapsed * 0.01)` and
`Math.sin(elapsed * 0.03)`):
`intensity = sin1 * 0.3 + 0.2; variation = sin2 * 0.2;
mouthValue = Math.max(0, Math.min(1, intensity + variation))`. -/
def fallbackMouthValue {α : Type} [LinearOrderedField α] (s1 s2 : α) : α :=
  max 0 (min 1 ((s1 * (3/10) + 2/10) + s2 * (2/10)))

/-- One frame of `animateFromText`: while `elapsed / duration < 1`
(duration 3000 ms) write the synthetic mouth value, afterwards write 0.
The sine function is passed as a parameter (`Math.sin` in the source). -/
def fallbackFrame {α : Type} [LinearOrderedField α] (sinF : ℚ → α)
    (elapsed : ℚ) : α :=
  if elapsed / 3000 < 1 then
    fallbackMouthValue (sinF (elapsed * (1/100))) (sinF (elapsed * (3/100)))
  else 0

/-- The fields of the `audioCapture` result object that `triggerSpeaking`
inspects before falling back. -/
structure AudioCaptureInfo where
  connection : Bool
  element : Bool
  stream : Bool

/-- The fallback guard of `triggerSpeaking`:
`!audioCapture?.connection && !audioCapture?.element && !audioCapture?.stream`
(with optional chaining: all three read as absent when `audioCapture` is
null). -/
def shouldRunTextFallback : Option AudioCaptureInfo → Bool
  | none => true
  | some c => !c.connection && !c.element && !c.stream

/-- The source-acquisition timeout of `triggerSpeaking`
(`setTimeout(..., 5000)`). -/
def fallbackDelayMs : ℕ := 5000

/-- The fixed duration of the synthetic fallback animation
(`let duration = 3000`). -/
def fallbackDurationMs : ℕ := 3000

/-! ## Every write to `ParamMouthOpenY` (`src/lib/lipsync.ts`) -/

/-- One write to the renderer's `ParamMouthOpenY` parameter, tagged by the
code path that performs it:
* `audioFrame rms` — `analyzeAudio` in `setupAudioBasedLipsync` (silence
  write or clamped transfer value);
* `textReset` — the per-frame reset to 0 in `animateMouth`
  (`setupTextBasedLipsync`);
* `textFrame raw` — the main write of `animateMouth`;
* `textDecay` — the closing write of `animateMouth`
  (`newValue = currentValue * 0.9`);
* `eventFrame volume` — `analyzeAndUpdate` in `setupRealtimeEventLipsync`
  (`Math.max(0, Math.min(1, currentVolume * 2))`);
* `fallbackWrite s1 s2` — the synthetic fallback frame of `triggerSpeaking`;
* `closeMouth` — the forced 0 of `stopMonitoring` / fallback end. -/
inductive MouthEvent where
  | audioFrame (rms : ℚ)
  | textReset
  | textFrame (raw : ℚ)
  | textDecay
  | eventFrame (volume : ℚ)
  | fallbackWrite (s1 s2 : ℚ)
  | closeMouth

/-- The value each write path stores into `ParamMouthOpenY`, as a function of
the previous parameter value `v` (only the decay write reads it back). -/
def mouthWrite (v : ℚ) : MouthEvent → ℚ
  | .audioFrame rms =>
    let c := max 0 (min 10 rms)
    if c < silenceThreshold then 0 else audioMouthValue c
  | .textReset => 0
  | .textFrame raw => textMouthValue raw
  | .textDecay => v * (9/10)
  | .eventFrame volume => max 0 (min 1 (volume * 2))
  | .fallbackWrite s1 s2 => fallbackMouthValue s1 s2
  | .closeMouth => 0

/-- The mouth parameter after a sequence of writes, starting from the closed
(0) position the controller guarantees outside a session. -/
def runMouth (es : List MouthEvent) : ℚ := es.foldl mouthWrite 0

end Live2dSample

namespace Live2dSample

/-- C5: Splitting the input string "Hello. How are you? Fine" at
sentence-terminal punctuation yields exactly the completed chunks
["Hello.", "How are you?"] and the remaining (held-back) text "Fine". -/
theorem C5_split_hello_example :
    splitByPunctuation "Hello. How are you? Fine" =
      (["Hello.", "How are you?"], "Fine") := by
  decide

/-- A clamp stays at or below its ceiling whenever floor ≤ ceiling. -/
theorem clampQ_le_hi {lo hi : ℚ} (x : ℚ) (h : lo ≤ hi) : clampQ lo hi x ≤ hi :=
  max_le h (min_le_left _ _)

/-- A clamp stays at or above its floor. -/
theorem le_clampQ (lo hi x : ℚ) : lo ≤ clampQ lo hi x :=
  le_max_left _ _

/-- C2: in the amplitude-to-parameter mappers, a raw value below the silence
threshold is written as exactly 0 (audio path), and a raw value above the
threshold is written as `clamp(raw * weight, floor, ceiling)`, hence lies in
`[floor, ceiling]` — audio path: weight 0.6, floor 0.2, ceiling 0.8; text
path (whose silence threshold is raw = 0): weight 1.2, floor 0.4, ceiling 1. -/
theorem C2_mapper_silence_and_clamp :
    (∀ (aid : Option ℕ) (rms : ℚ), max 0 (min 10 rms) < silenceThreshold →
        (analyzeAudioStep true true aid rms).write = some 0) ∧
    (∀ (aid : Option ℕ) (rms : ℚ), silenceThreshold ≤ max 0 (min 10 rms) →
        (analyzeAudioStep true true aid rms).write =
          some (clampQ (1/5) (4/5) (max 0 (min 10 rms) * (3/5))) ∧
        1/5 ≤ clampQ (1/5) (4/5) (max 0 (min 10 rms) * (3/5)) ∧
        clampQ (1/5) (4/5) (max 0 (min 10 rms) * (3/5)) ≤ 4/5) ∧
    textMouthValue 0 = 0 ∧
    (∀ raw : ℚ, 0 < raw →
        textMouthValue raw = clampQ (2/5) 1 (raw * (6/5)) ∧
        2/5 ≤ textMouthValue raw ∧ textMouthValue raw ≤ 1) := by
  refine ⟨?_, ?_, by norm_num [textMouthValue], ?_⟩
  · intro aid rms h
    simp only [analyzeAudioStep, Bool.not_true, Bool.or_self, Bool.false_eq_true,
      if_false, if_pos h]
  · intro aid rms h
    have hpos : (0 : ℚ) < max 0 (min 10 rms) := lt_of_lt_of_le (by norm_num [silenceThreshold]) h
    have hval : audioMouthValue (max 0 (min 10 rms)) =
        clampQ (1/5) (4/5) (max 0 (min 10 rms) * (3/5)) := by
      simp only [audioMouthValue, clampQ, if_pos hpos]
    refine ⟨?_, le_clampQ _ _ _, clampQ_le_hi _ (by norm_num)⟩
    simp only [analyzeAudioStep, Bool.not_true, Bool.or_self, Bool.false_eq_true,
      if_false, if_neg (not_lt.mpr h), hval]
  · intro raw h
    have hval : textMouthValue raw = clampQ (2/5) 1 (raw * (6/5)) := by
      simp only [textMouthValue, clampQ, if_pos h]
    exact ⟨hval, hval ▸ le_clampQ _ _ _, hval ▸ clampQ_le_hi _ (by norm_num)⟩

/-- Witness for C2 at concrete inputs: a silent frame (rms 0) writes 0; a loud
frame (rms 1) writes the clamped value; a positive text-path raw value is
clamped. -/
theorem C2_mapper_witness :
    (analyzeAudioStep true true (some 1) 0).write = some 0 ∧
    (analyzeAudioStep true true (some 1) 1).write =
      some (clampQ (1/5) (4/5) (max 0 (min 10 (1 : ℚ)) * (3/5))) ∧
    textMouthValue (1/2) = clampQ (2/5) 1 ((1/2) * (6/5)) :=
  ⟨C2_mapper_silence_and_clamp.1 (some 1) 0 (by norm_num [silenceThreshold]),
   (C2_mapper_silence_and_clamp.2.1 (some 1) 1 (by norm_num [silenceThreshold])).1,
   (C2_mapper_silence_and_clamp.2.2.2 (1/2) (by norm_num)).1⟩

/-- C4: the claim states that after every frame of the monitoring loop —
including frames below the silence threshold — the next animation-frame
callback is scheduled.  The code violates this: the silence branch of
`analyzeAudio` returns early, skipping the trailing
`requestAnimationFrame(analyzeAudio)`, so a single silent frame halts the
per-frame analysis loop for good (and the `animationId === null` restart
guard in the `play` listener can never fire again, since `animationId`
retains its stale non-null value).  This theorem evaluates the embedded
callback at the failing input: monitoring active, analyser present,
`animationId = some 1`, silent signal — the write is 0 but no next frame is
scheduled. -/
theorem C4_silent_frame_halts_loop :
    analyzeAudioStep true true (some 1) 0 =
      { write := some 0, scheduledNext := false } := by
  norm_num [analyzeAudioStep, silenceThreshold]

/-- C3 counterexample: the claim states that at stream end any held-back
trailing remainder — including one of 3 characters or fewer — is flushed to
the speech queue.  The code's guard is
`remainingText.trim() && remainingText.trim().length > 3`, so the nonempty
2-character remainder "Hi" is dropped, not flushed. -/
theorem C3_short_remainder_dropped :
    finalFlush [] "Hi" = none ∧ jsTrim "Hi" ≠ "" ∧ (jsTrim "Hi").length ≤ 3 := by
  decide

/-- C3 amended: when the stream ends, the trailing remainder is flushed as a
final chunk only if its trimmed length exceeds 3 characters (and it was not
already emitted); shorter remainders are discarded. -/
theorem C3_flush_only_over_three_chars (processed : List String)
    (remaining : String) (hlen : (jsTrim remaining).length > 3)
    (hnew : jsTrim remaining ∉ processed) :
    finalFlush processed remaining = some (jsTrim remaining) := by
  have hne : jsTrim remaining ≠ "" := by
    intro h
    rw [h] at hlen
    simp at hlen
  simp [finalFlush, hne, hlen, hnew]

/-- Witness for the amended C3 at a concrete input: a 9-character remainder
not yet emitted is flushed. -/
theorem C3_flush_witness : finalFlush [] "Fine then" = some (jsTrim "Fine then") :=
  C3_flush_only_over_three_chars [] "Fine then" (by decide) (by decide)

/-- C6: when no real audio source was acquired (`triggerSpeaking`'s guard on
a null/empty `audioCapture` after the 5000 ms timeout), the synthetic
fallback runs without external input: during its fixed 3000 ms duration it
writes values bounded within [0, 1], the written sequence is non-constant
(with `Math.sin` as the sine source, the frames at 0 ms and 100 ms differ),
and once the duration has elapsed it writes 0 (mouth closed). -/
theorem C6_fallback_animation :
    shouldRunTextFallback none = true ∧
    fallbackDelayMs = 5000 ∧
    fallbackDurationMs = 3000 ∧
    (∀ (sinF : ℚ → ℝ) (e : ℚ),
        0 ≤ fallbackFrame sinF e ∧ fallbackFrame sinF e ≤ 1) ∧
    fallbackFrame (fun q => Real.sin (q : ℝ)) 100 ≠
      fallbackFrame (fun q => Real.sin (q : ℝ)) 0 ∧
    (∀ (sinF : ℚ → ℝ) (e : ℚ), 3000 ≤ e → fallbackFrame sinF e = 0) := by
  refine ⟨rfl, rfl, rfl, ?_, ?_, ?_⟩
  · intro sinF e
    unfold fallbackFrame
    split
    · exact ⟨le_max_left _ _, max_le zero_le_one (min_le_left _ _)⟩
    · norm_num
  · have hsin1 : 0 < Real.sin 1 :=
      Real.sin_pos_of_pos_of_lt_pi one_pos
        (by linarith [Real.pi_gt_three])
    have hsin3 : 0 < Real.sin 3 :=
      Real.sin_pos_of_pos_of_lt_pi (by norm_num) Real.pi_gt_three
    have h1le : Real.sin 1 ≤ 1 := Real.sin_le_one 1
    have h3le : Real.sin 3 ≤ 1 := Real.sin_le_one 3
    have h0 : fallbackFrame (fun q => Real.sin (q : ℝ)) 0 = 1/5 := by
      unfold fallbackFrame fallbackMouthValue
      rw [if_pos (by norm_num)]
      norm_num
    have h100 : fallbackFrame (fun q => Real.sin (q : ℝ)) 100 =
        (Real.sin 1 * (3/10) + 2/10) + Real.sin 3 * (2/10) := by
      unfold fallbackFrame fallbackMouthValue
      rw [if_pos (by norm_num)]
      norm_num
      rw [min_eq_right (by linarith), max_eq_right (by linarith)]
    rw [h0, h100]
    intro hcontra
    nlinarith
  · intro sinF e h
    unfold fallbackFrame
    rw [if_neg (not_lt.mpr ((one_le_div (by norm_num)).mpr h))]

/-- Witness for C6 at a concrete input: at exactly 3000 ms elapsed the
fallback writes 0. -/
theorem C6_fallback_witness :
    fallbackFrame (fun q => Real.sin (q : ℝ)) 3000 = 0 :=
  C6_fallback_animation.2.2.2.2.2 (fun q => Real.sin (q : ℝ)) 3000 le_rfl

/-- Any single write to `ParamMouthOpenY` stays in [0, 1] when the previous
parameter value did (only the decay write depends on the previous value). -/
theorem mouthWrite_range {v : ℚ} (h0 : 0 ≤ v) (h1 : v ≤ 1) (e : MouthEvent) :
    0 ≤ mouthWrite v e ∧ mouthWrite v e ≤ 1 := by
  cases e with
  | audioFrame rms =>
    simp only [mouthWrite]
    split
    · norm_num
    · simp only [audioMouthValue]
      constructor
      · refine le_trans ?_ (le_max_left _ _)
        split <;> norm_num
      · refine max_le ?_ (le_trans (min_le_left _ _) (by norm_num))
        split <;> norm_num
  | textReset => simp [mouthWrite]
  | textFrame raw =>
    simp only [mouthWrite, textMouthValue]
    constructor
    · refine le_trans ?_ (le_max_left _ _)
      split <;> norm_num
    · refine max_le ?_ (min_le_left _ _)
      split <;> norm_num
  | textDecay =>
    simp only [mouthWrite]
    exact ⟨mul_nonneg h0 (by norm_num), by nlinarith⟩
  | eventFrame volume =>
    simp only [mouthWrite]
    exact ⟨le_max_left _ _, max_le zero_le_one (min_le_left _ _)⟩
  | fallbackWrite s1 s2 =>
    simp only [mouthWrite, fallbackMouthValue]
    exact ⟨le_max_left _ _, max_le zero_le_one (min_le_left _ _)⟩
  | closeMouth => simp [mouthWrite]

/-- After any sequence of writes starting from a value in [0, 1], the mouth
parameter remains in [0, 1]. -/
theorem foldl_mouthWrite_range (es : List MouthEvent) :
    ∀ v : ℚ, 0 ≤ v → v ≤ 1 →
      0 ≤ es.foldl mouthWrite v ∧ es.foldl mouthWrite v ≤ 1 := by
  induction es with
  | nil => intro v h0 h1; simpa using ⟨h0, h1⟩
  | cons e rest ih =>
    intro v h0 h1
    have h := mouthWrite_range h0 h1 e
    simpa using ih (mouthWrite v e) h.1 h.2

/-- C9: every value written to the renderer's mouth-openness parameter
(`ParamMouthOpenY`), by any of the lip-sync code paths (audio analysis,
text-based simulation, event-based update, synthetic fallback, decay, and
closing), lies within [0, 1]: after any sequence of such writes starting
from the closed position, the parameter is within [0, 1]. -/
theorem C9_mouth_param_in_unit_interval (es : List MouthEvent) :
    0 ≤ runMouth es ∧ runMouth es ≤ 1 :=
  foldl_mouthWrite_range es 0 le_rfl zero_le_one

/-- Resolving a payload never changes the ids in the queue. -/
theorem resolveChunk_ids (q : List SpeechChunk) (i : ℕ) (url : String) :
    (resolveChunk q i url).map SpeechChunk.id = q.map SpeechChunk.id := by
  unfold resolveChunk
  rw [List.map_map]
  refine List.map_congr_left ?_
  intro c _
  by_cases h : c.id = i <;> simp [Function.comp, h]

/-- Every queue event preserves the ordering invariant. -/
theorem applyEvent_inv {st : AudioQueueState} (h : QInv st) (e : QueueEvent) :
    QInv (applyEvent st e) := by
  obtain ⟨hsort, hlt⟩ := h
  cases e with
  | enqueue text =>
    have hids : queueIds (applyEvent st (.enqueue text)) =
        queueIds st ++ [st.nextId] := by
      simp [applyEvent, queueIds]
    have hplayed : (applyEvent st (.enqueue text)).played = st.played := rfl
    have hnext : (applyEvent st (.enqueue text)).nextId = st.nextId + 1 := rfl
    refine ⟨?_, ?_⟩
    · rw [hplayed, hids, ← List.append_assoc]
      refine List.pairwise_append.mpr ⟨hsort, List.pairwise_singleton _ _, ?_⟩
      intro x hx y hy
      simp only [List.mem_singleton] at hy
      subst hy
      exact hlt x hx
    · intro x hx
      rw [hplayed, hids, ← List.append_assoc] at hx
      rw [hnext]
      rcases List.mem_append.mp hx with hx | hx
      · exact Nat.lt_succ_of_lt (hlt x hx)
      · simp only [List.mem_singleton] at hx
        omega
  | resolve i url =>
    have hids : queueIds (applyEvent st (.resolve i url)) = queueIds st := by
      simpa [applyEvent, queueIds] using resolveChunk_ids st.queue i url
    have hplayed : (applyEvent st (.resolve i url)).played = st.played := rfl
    have hnext : (applyEvent st (.resolve i url)).nextId = st.nextId := rfl
    exact ⟨by rw [hplayed, hids]; exact hsort,
      by rw [hplayed, hids, hnext]; exact hlt⟩
  | synthFail i =>
    have hids : queueIds (applyEvent st (.synthFail i)) =
        (st.queue.filter fun c => c.id ≠ i).map SpeechChunk.id := by
      simp [applyEvent, queueIds]
    have hplayed : (applyEvent st (.synthFail i)).played = st.played := rfl
    have hnext : (applyEvent st (.synthFail i)).nextId = st.nextId := rfl
    have hsub : List.Sublist
        ((st.queue.filter fun c => c.id ≠ i).map SpeechChunk.id)
        (st.queue.map SpeechChunk.id) := (List.filter_sublist _).map _
    have hsub2 := hsub.append_left st.played
    refine ⟨?_, ?_⟩
    · rw [hplayed, hids]
      exact hsort.sublist hsub2
    · intro x hx
      rw [hplayed, hids] at hx
      rw [hnext]
      exact hlt x (hsub2.subset hx)
  | processQueue =>
    by_cases hp : st.processing
    · have happ : applyEvent st .processQueue = st := by
        simp [applyEvent, hp]
      rw [happ]
      exact ⟨hsort, hlt⟩
    · cases hq : st.queue with
      | nil =>
        have happ : applyEvent st .processQueue = st := by
          simp [applyEvent, hp, hq]
        rw [happ]
        exact ⟨hsort, hlt⟩
      | cons c rest =>
        cases hu : c.audioUrl with
        | none =>
          have happ : applyEvent st .processQueue = st := by
            simp [applyEvent, hp, hq, hu]
          rw [happ]
          exact ⟨hsort, hlt⟩
        | some url =>
          have happ : applyEvent st .processQueue =
              { queue := rest, nextId := st.nextId, processing := true,
                played := st.played ++ [c.id] } := by
            simp [applyEvent, hp, hq, hu]
          have hperm : (st.played ++ [c.id]) ++ rest.map SpeechChunk.id =
              st.played ++ queueIds st := by
            simp [queueIds, hq]
          refine ⟨?_, ?_⟩
          · rw [happ]
            show ((st.played ++ [c.id]) ++ rest.map SpeechChunk.id).Pairwise
              (· < ·)
            rw [hperm]
            exact hsort
          · intro x hx
            rw [happ] at hx
            have hx2 : x ∈ (st.played ++ [c.id]) ++ rest.map SpeechChunk.id :=
              hx
            rw [hperm] at hx2
            rw [happ]
            exact hlt x hx2
  | finishPlayback =>
    exact ⟨hsort, hlt⟩

/-- The ordering invariant holds in every reachable queue state. -/
theorem runQueue_inv (es : List QueueEvent) : QInv (runQueue es) := by
  have h : ∀ (l : List QueueEvent) (st : AudioQueueState), QInv st →
      QInv (l.foldl applyEvent st) := by
    intro l
    induction l with
    | nil => intro st h; simpa using h
    | cons e rest ih => intro st h; simpa using ih _ (applyEvent_inv h e)
  refine h es initialQueueState ⟨?_, ?_⟩
  · simp [queueIds, initialQueueState]
  · intro x hx
    simp [queueIds, initialQueueState] at hx

/-- C1: playback start order equals enqueue order regardless of the order in
which the synthesis calls resolve.  First conjunct: after any event sequence
the trace of started playbacks is strictly increasing in chunk id (ids are
assigned in enqueue order).  Second conjunct: while the head chunk's payload
is unresolved, no event starts a playback — the driver only ever plays the
head of the queue.  Third conjunct: a synthesis resolution applies
unconditionally (a pending head never blocks synthesis of later chunks). -/
theorem C1_playback_in_enqueue_order :
    (∀ es : List QueueEvent, (runQueue es).played.Pairwise (· < ·)) ∧
    (∀ (st : AudioQueueState) (e : QueueEvent),
        headPending st = true → (applyEvent st e).played = st.played) ∧
    (∀ (st : AudioQueueState) (i : ℕ) (url : String),
        applyEvent st (.resolve i url) =
          { st with queue := resolveChunk st.queue i url }) := by
  refine ⟨?_, ?_, fun st i url => rfl⟩
  · intro es
    exact (runQueue_inv es).1.sublist (List.sublist_append_left _ _)
  · intro st e h
    cases e with
    | enqueue text => rfl
    | resolve i url => rfl
    | synthFail i => rfl
    | finishPlayback => rfl
    | processQueue =>
      simp only [applyEvent]
      by_cases hp : st.processing
      · rw [if_pos hp]
      · rw [if_neg hp]
        cases hq : st.queue with
        | nil => rfl
        | cons c rest =>
          have hu : c.audioUrl = none := by
            simpa [headPending, hq, Option.isNone_iff_eq_none] using h
          simp [hq, hu]

/-- Witness for C1 at a concrete run: after enqueueing two chunks and
resolving the second one first, the playback trace is (vacuously) in order,
and a `processAudioQueue` invocation starts nothing because the head (id 0)
is still pending. -/
theorem C1_queue_witness :
    (runQueue [.enqueue "a", .enqueue "b", .resolve 1 "u"]).played.Pairwise
        (· < ·) ∧
    (applyEvent (runQueue [.enqueue "a", .enqueue "b", .resolve 1 "u"])
          QueueEvent.processQueue).played =
      (runQueue [.enqueue "a", .enqueue "b", .resolve 1 "u"]).played :=
  ⟨C1_playback_in_enqueue_order.1 _,
   C1_playback_in_enqueue_order.2.1 _ QueueEvent.processQueue (by decide)⟩

/-- `enqueue` on a nonempty chunk: the literal scheduling law. -/
theorem spEnqueue_eq (sampleRate : ℚ) (st : StreamingSchedule) (now : ℚ)
    {len : ℕ} (h : len ≠ 0) :
    spEnqueue sampleRate st now len =
      (⟨max st.playbackTime (now + minLeadTime) + (len : ℚ) / sampleRate⟩,
       some (max st.playbackTime (now + minLeadTime),
             max st.playbackTime (now + minLeadTime) +
               (len : ℚ) / sampleRate)) := by
  simp [spEnqueue, h]

/-- `enqueue` on an empty chunk is a no-op. -/
theorem spEnqueue_zero (sampleRate : ℚ) (st : StreamingSchedule) (now : ℚ) :
    spEnqueue sampleRate st now 0 = (st, none) := by
  simp [spEnqueue]

/-- The scheduling clock never moves backwards across one `enqueue`. -/
theorem spEnqueue_clock_mono {sampleRate : ℚ} (hr : 0 < sampleRate)
    (st : StreamingSchedule) (now : ℚ) (len : ℕ) :
    st.playbackTime ≤ (spEnqueue sampleRate st now len).1.playbackTime := by
  by_cases h : len = 0
  · rw [h, spEnqueue_zero]
  · rw [spEnqueue_eq sampleRate st now h]
    have hd : (0 : ℚ) ≤ (len : ℚ) / sampleRate :=
      div_nonneg (by positivity) hr.le
    calc st.playbackTime ≤ max st.playbackTime (now + minLeadTime) :=
          le_max_left _ _
      _ ≤ max st.playbackTime (now + minLeadTime) + (len : ℚ) / sampleRate :=
          le_add_of_nonneg_right hd

/-- The scheduling clock never moves backwards across a run of `enqueue`s. -/
theorem spRun_clock_mono {sampleRate : ℚ} (hr : 0 < sampleRate)
    (inp : List (ℚ × ℕ)) : ∀ st : StreamingSchedule,
    st.playbackTime ≤ (spRun sampleRate st inp).1.playbackTime := by
  induction inp with
  | nil => intro st; simp [spRun]
  | cons p rest ih =>
    intro st
    obtain ⟨now, len⟩ := p
    exact le_trans (spEnqueue_clock_mono hr st now len)
      (by simpa [spRun] using ih (spEnqueue sampleRate st now len).1)

/-- Every interval scheduled by a run starts no earlier than the clock at the
start of the run, is well-formed, and ends no later than the final clock. -/
theorem spRun_intervals {sampleRate : ℚ} (hr : 0 < sampleRate)
    (inp : List (ℚ × ℕ)) : ∀ st : StreamingSchedule,
    ∀ iv ∈ (spRun sampleRate st inp).2,
      st.playbackTime ≤ iv.1 ∧ iv.1 ≤ iv.2 ∧
      iv.2 ≤ (spRun sampleRate st inp).1.playbackTime := by
  induction inp with
  | nil => intro st iv h; simp [spRun] at h
  | cons p rest ih =>
    intro st iv h
    obtain ⟨now, len⟩ := p
    have hd : (0 : ℚ) ≤ (len : ℚ) / sampleRate :=
      div_nonneg (by positivity) hr.le
    simp only [spRun] at h ⊢
    rcases List.mem_append.mp h with h | h
    · by_cases hl : len = 0
      · rw [hl, spEnqueue_zero] at h
        simp at h
      · rw [spEnqueue_eq sampleRate st now hl] at h ⊢
        simp only [Option.toList_some, List.mem_singleton] at h
        subst h
        refine ⟨le_max_left _ _, le_add_of_nonneg_right hd, ?_⟩
        exact spRun_clock_mono hr rest _
    · have hmem := ih (spEnqueue sampleRate st now len).1 iv h
      exact ⟨le_trans (spEnqueue_clock_mono hr st now len) hmem.1,
        hmem.2.1, hmem.2.2⟩

/-- The intervals of a run are pairwise sequential: each interval ends
before (or exactly when) any later interval starts. -/
theorem spRun_pairwise {sampleRate : ℚ} (hr : 0 < sampleRate)
    (inp : List (ℚ × ℕ)) : ∀ st : StreamingSchedule,
    ((spRun sampleRate st inp).2).Pairwise fun a b => a.2 ≤ b.1 := by
  induction inp with
  | nil => intro st; simp [spRun]
  | cons p rest ih =>
    intro st
    obtain ⟨now, len⟩ := p
    by_cases hl : len = 0
    · simpa [spRun, hl, spEnqueue_zero] using
        ih (spEnqueue sampleRate st now 0).1
    · simp only [spRun, spEnqueue_eq sampleRate st now hl,
        Option.toList_some, List.singleton_append]
      refine List.Pairwise.cons ?_ ?_
      · intro b hb
        have hmem := (spRun_intervals hr rest
          ⟨max st.playbackTime (now + minLeadTime) +
            (len : ℚ) / sampleRate⟩ b hb).1
        exact hmem
      · exact ih _

/-- C7: each PCM chunk enqueued into the streaming player is scheduled to
start at `max(previous chunk's end time, current time + 50 ms)` (first
conjunct, the literal law, with the clock advancing to the chunk's end).
Consequently every scheduled chunk starts at least 50 ms after the enqueue
time and no earlier than the previous end (second conjunct), any two
scheduled chunks of a run are sequential and non-overlapping (third
conjunct), and a chunk enqueued while the clock is still ahead starts
exactly back-to-back at the previous end (fourth conjunct, gapless). -/
theorem C7_streaming_schedule (sampleRate : ℚ) (hr : 0 < sampleRate) :
    (∀ (st : StreamingSchedule) (now : ℚ) (len : ℕ), len ≠ 0 →
        spEnqueue sampleRate st now len =
          (⟨max st.playbackTime (now + minLeadTime) + (len : ℚ) / sampleRate⟩,
           some (max st.playbackTime (now + minLeadTime),
                 max st.playbackTime (now + minLeadTime) +
                   (len : ℚ) / sampleRate))) ∧
    (∀ (st : StreamingSchedule) (now : ℚ) (len : ℕ) (s e : ℚ),
        (spEnqueue sampleRate st now len).2 = some (s, e) →
        now + minLeadTime ≤ s ∧ st.playbackTime ≤ s ∧ s ≤ e) ∧
    (∀ (st : StreamingSchedule) (inp : List (ℚ × ℕ)),
        ((spRun sampleRate st inp).2).Pairwise fun a b => a.2 ≤ b.1) ∧
    (∀ (st : StreamingSchedule) (now : ℚ) (len : ℕ), len ≠ 0 →
        now + minLeadTime ≤ st.playbackTime →
        (spEnqueue sampleRate st now len).2 =
          some (st.playbackTime,
                st.playbackTime + (len : ℚ) / sampleRate)) := by
  refine ⟨fun st now len h => spEnqueue_eq sampleRate st now h, ?_, ?_, ?_⟩
  · intro st now len s e h
    by_cases hl : len = 0
    · rw [hl, spEnqueue_zero] at h
      cases h
    · rw [spEnqueue_eq sampleRate st now hl] at h
      have hd : (0 : ℚ) ≤ (len : ℚ) / sampleRate :=
        div_nonneg (by positivity) hr.le
      simp only [Option.some.injEq, Prod.mk.injEq] at h
      obtain ⟨hs, he⟩ := h
      subst hs
      subst he
      exact ⟨le_max_right _ _, le_max_left _ _, le_add_of_nonneg_right hd⟩
  · intro st inp
    exact spRun_pairwise hr inp st
  · intro st now len hl hahead
    rw [spEnqueue_eq sampleRate st now hl, max_eq_left hahead]

/-- Witness for C7 at concrete inputs: sample rate 24000, a 2400-sample
chunk enqueued at time 0 into a fresh player is scheduled at the 50 ms lead
and ends 100 ms later; the pairwise-sequencing fact at a concrete two-chunk
run. -/
theorem C7_streaming_witness :
    spEnqueue 24000 ⟨0⟩ 0 2400 =
      (⟨max (0 : ℚ) (0 + minLeadTime) + (2400 : ℚ) / 24000⟩,
       some (max (0 : ℚ) (0 + minLeadTime),
             max (0 : ℚ) (0 + minLeadTime) + (2400 : ℚ) / 24000)) ∧
    ((spRun 24000 ⟨0⟩ [(0, 2400), (0, 2400)]).2).Pairwise
      fun a b => a.2 ≤ b.1 :=
  ⟨(C7_streaming_schedule 24000 (by norm_num)).1 ⟨0⟩ 0 2400 (by norm_num),
   (C7_streaming_schedule 24000 (by norm_num)).2.2.1 ⟨0⟩ [(0, 2400), (0, 2400)]⟩

/-- C8: an `interrupted` server event (and only an `interrupted` one)
triggers `flushAndStop`, which discards all not-yet-played scheduled audio
at once: every scheduled source is stopped and disconnected, the
scheduled-source list becomes empty, and the playback clock is reset to the
current time (first three conjuncts, from the repository code).  The final
conjunct is the renderer side, modelled from the spec (`specMouthFrame`):
with the discarded audio producing a silent signal, the very next animation
frame writes mouth value 0. -/
theorem C8_interrupted_discards_audio :
    (∀ tc : Bool, onServerContentFlush true tc true = true) ∧
    (∀ tc hp : Bool, onServerContentFlush false tc hp = false) ∧
    (∀ (now : ℚ) (st : StreamingPlayerBuffers),
        (flushAndStop now st).1.scheduledSources = [] ∧
        (flushAndStop now st).1.playbackTime = now ∧
        ∀ s ∈ (flushAndStop now st).2,
          s.stopped = true ∧ s.connected = false) ∧
    specMouthFrame 0 = 0 := by
  refine ⟨fun tc => rfl, fun tc hp => rfl, ?_, ?_⟩
  · intro now st
    refine ⟨rfl, rfl, ?_⟩
    intro s hs
    simp only [flushAndStop, List.mem_map] at hs
    obtain ⟨s0, _, hs0⟩ := hs
    subst hs0
    exact ⟨rfl, rfl⟩
  · simp [specMouthFrame, silenceThreshold]

/-- Witness for C8 at a concrete state: flushing a player that still has one
playing (connected, unstopped) source empties the list, resets the clock to
the given time, and the inspected source comes out stopped and
disconnected. -/
theorem C8_flush_witness :
    (flushAndStop 2 ⟨[⟨false, true⟩], 5⟩).1.scheduledSources = [] ∧
    (flushAndStop 2 ⟨[⟨false, true⟩], 5⟩).1.playbackTime = 2 ∧
    (⟨true, false⟩ : ScheduledSource).stopped = true ∧
    (⟨true, false⟩ : ScheduledSource).connected = false :=
  have h := C8_interrupted_discards_audio.2.2.1 2 ⟨[⟨false, true⟩], 5⟩
  have hmem : (⟨true, false⟩ : ScheduledSource) ∈
      (flushAndStop 2 ⟨[⟨false, true⟩], 5⟩).2 := by decide
  ⟨h.1, h.2.1, (h.2.2 _ hmem).1, (h.2.2 _ hmem).2⟩

/-- Decoding a base64 digit recovers its 6-bit value. -/
theorem b64Index_b64Char : ∀ i < 64, b64Index (b64Char i) = i := by decide

/-- No base64 digit is the padding character. -/
theorem b64Char_ne_pad : ∀ i < 64, b64Char i ≠ '=' := by decide

/-- `atob` is a left inverse of `btoa` on byte sequences. -/
theorem atob_btoa : ∀ bs : List ℕ, (∀ b ∈ bs, b < 256) →
    atobBytes (btoaBytes bs) = bs
  | [], _ => rfl
  | [a], h => by
    have ha : a < 256 := h a (by simp)
    have h1 := b64Index_b64Char (a / 4) (by omega)
    have h2 := b64Index_b64Char (a % 4 * 16) (by omega)
    simp only [btoaBytes, atobBytes, if_true, if_pos rfl, h1, h2,
      List.cons.injEq, and_true]
    omega
  | [a, b], h => by
    have ha : a < 256 := h a (by simp)
    have hb : b < 256 := h b (by simp)
    have h1 := b64Index_b64Char (a / 4) (by omega)
    have h2 := b64Index_b64Char (a % 4 * 16 + b / 16) (by omega)
    have h3 := b64Index_b64Char (b % 16 * 4) (by omega)
    have hne3 := b64Char_ne_pad (b % 16 * 4) (by omega)
    simp only [btoaBytes, atobBytes, hne3, if_false, if_true, if_pos rfl,
      h1, h2, h3, List.cons.injEq, and_true]
    constructor <;> omega
  | a :: b :: c :: rest, h => by
    have ha : a < 256 := h a (by simp)
    have hb : b < 256 := h b (by simp)
    have hc : c < 256 := h c (by simp)
    have h1 := b64Index_b64Char (a / 4) (by omega)
    have h2 := b64Index_b64Char (a % 4 * 16 + b / 16) (by omega)
    have h3 := b64Index_b64Char (b % 16 * 4 + c / 64) (by omega)
    have h4 := b64Index_b64Char (c % 64) (by omega)
    have hne3 := b64Char_ne_pad (b % 16 * 4 + c / 64) (by omega)
    have hne4 := b64Char_ne_pad (c % 64) (by omega)
    have hrec := atob_btoa rest fun x hx => h x (by simp [hx])
    simp only [btoaBytes, atobBytes, hne3, hne4, if_false, h1, h2, h3, h4,
      List.cons.injEq, hrec, and_true]
    refine ⟨?_, ?_, ?_⟩ <;> omega

/-- Every byte of the packed buffer is a byte. -/
theorem int16sToBytesLE_lt (xs : List ℤ) :
    ∀ b ∈ int16sToBytesLE xs, b < 256 := by
  induction xs with
  | nil => intro b hb; simp [int16sToBytesLE] at hb
  | cons x xs ih =>
    intro b hb
    simp only [int16sToBytesLE, int16ToBytesLE, List.cons_append,
      List.nil_append, List.append_eq, List.mem_cons] at hb
    rcases hb with hb | hb | hb
    · omega
    · omega
    · exact ih b hb

/-- Little-endian 16-bit packing round-trips through the byte pairing for
samples in the `Int16` range. -/
theorem bytesToInt16_int16ToBytes : ∀ xs : List ℤ,
    (∀ x ∈ xs, -32768 ≤ x ∧ x ≤ 32767) →
    bytesToInt16LE (int16sToBytesLE xs) = xs
  | [], _ => rfl
  | x :: xs, h => by
    have hx1 : -32768 ≤ x := (h x (by simp)).1
    have hx2 : x ≤ 32767 := (h x (by simp)).2
    have hrec := bytesToInt16_int16ToBytes xs fun y hy => h y (by simp [hy])
    simp only [int16sToBytesLE, int16ToBytesLE, List.cons_append,
      List.nil_append, List.append_eq, bytesToInt16LE, hrec,
      List.cons.injEq, and_true]
    split <;> omega

/-- C10: encoding an `Int16Array` with `int16ArrayToBase64` (little-endian,
2 bytes per sample, `btoa`) and decoding the base64 string with the
receive-side procedure (`atob`, byte buffer, reinterpret as `Int16Array` as
in the Gemini Live message handler and `combineAudioData`) yields the
original sample sequence. -/
theorem C10_base64_roundtrip (xs : List ℤ)
    (h : ∀ x ∈ xs, -32768 ≤ x ∧ x ≤ 32767) :
    decodeBase64ToInt16 (int16ArrayToBase64 xs) = xs := by
  unfold decodeBase64ToInt16 int16ArrayToBase64
  rw [atob_btoa _ (int16sToBytesLE_lt xs)]
  exact bytesToInt16_int16ToBytes xs h

/-- Witness for C10 at a concrete sample list covering 0, ±1 and both range
extremes. -/
theorem C10_base64_witness :
    decodeBase64ToInt16 (int16ArrayToBase64 [0, 1, -1, 32767, -32768]) =
      [0, 1, -1, 32767, -32768] :=
  C10_base64_roundtrip [0, 1, -1, 32767, -32768] (by decide)

end Live2dSample
